import Mathlib

/-!
Shallow embedding of `src/app.py` (the Country Currency API).

Conventions of the embedding:
* Python floats are modelled as rationals (`ℚ`); timestamps (`datetime.utcnow()`)
  as natural-number ticks supplied explicitly by the caller.
* `random.uniform(1000, 2000)` is modelled by an explicit draw stream
  `d : Nat → ℚ` together with a counter that advances once per actual call,
  exactly where the source calls `calculate_gdp` (which is the only place a
  draw happens on the refresh path).
* The two `requests.get` calls are modelled as `Except String` inputs: `.error`
  covers any `requests.RequestException` (transport error, timeout, or the
  `raise_for_status` of a non-success response), carrying the exception text.
* SQLAlchemy session semantics: a request works on a session view of the
  committed database; `db.session.commit()` persists the session,
  `db.session.rollback()` (and the session teardown at the end of the request)
  discards uncommitted session changes.  A handler therefore maps the
  committed state before the request to the committed state after it.
  Possible failures of `db.session.commit()` (backend errors) are injected as
  `Option String` parameters: `none` means the commit succeeds, `some msg`
  means it raises an exception with text `msg`.
* Lower-casing (`str.lower()` / SQL `lower()`) is modelled by `strLower`,
  which lower-cases character by character.
-/

/-- Character-wise lower-casing; models Python `str.lower()` and the SQL
`lower()` function applied by `db.func.lower`. -/
def strLower (s : String) : String := ⟨s.data.map Char.toLower⟩

/-- Python truthiness of an optional integer: `None` and `0` are falsy,
every other integer (including negatives) is truthy. -/
def truthyInt : Option Int → Bool
  | none => false
  | some n => decide (n ≠ 0)

/-- Python truthiness of an optional float: `None` and `0.0` are falsy,
every other value (including negatives) is truthy. -/
def truthyRat : Option ℚ → Bool
  | none => false
  | some q => decide (q ≠ 0)

/-- Python truthiness of an optional string: `None` and `""` are falsy. -/
def truthyStr : Option String → Bool
  | none => false
  | some s => decide (s ≠ "")

/-- Embedding of `calculate_gdp` (src/app.py lines 135-140).  The multiplier
drawn by `random.uniform(1000, 2000)` is passed explicitly.  The source
returns `None` when `not population or not exchange_rate` (Python
truthiness), and `(population * multiplier) / exchange_rate` otherwise. -/
def calculate_gdp (population : Option Int) (exchange_rate : Option ℚ)
    (multiplier : ℚ) : Option ℚ :=
  if !truthyInt population || !truthyRat exchange_rate then none
  else some (((population.getD 0 : Int) : ℚ) * multiplier / exchange_rate.getD 0)

/-- One element of the `currencies` array of a directory entry (a JSON object
with an optional `code` field). -/
structure CurrencyInfo where
  code : Option String
deriving Repr, DecidableEq

/-- One entry of the Country Directory Source response (restcountries JSON).
Every field is optional, matching the `.get` accesses in the source; an
element of `currencies` may itself be `null`, hence `Option CurrencyInfo`. -/
structure DirectoryEntry where
  name : Option String
  capital : Option String
  region : Option String
  population : Option Int
  flag : Option String
  currencies : Option (List (Option CurrencyInfo))
deriving Repr, DecidableEq

/-- Embedding of the `Country` model (src/app.py lines 77-108), minus the
auto-increment `id`, which no claim mentions. -/
structure Country where
  name : String
  capital : Option String
  region : Option String
  population : Int
  currency_code : Option String
  exchange_rate : Option ℚ
  estimated_gdp : Option ℚ
  flag_url : Option String
  last_refreshed_at : Nat
deriving Repr, DecidableEq

/-- Embedding of the `RefreshMetadata` model (src/app.py lines 111-123). -/
structure RefreshMetadata where
  last_refreshed_at : Nat
  total_countries : Nat
deriving Repr, DecidableEq

/-- The committed database: the `countries` table in insertion order, and the
single-row `refresh_metadata` table. -/
structure DBState where
  countries : List Country
  metadata : Option RefreshMetadata
deriving Repr, DecidableEq

/-- The exchange-rate mapping: the `rates` JSON object as an association
list. -/
abbrev Rates := List (String × ℚ)

/-- Embedding of Python `dict.get` on the rates mapping. -/
def Rates.get (rs : Rates) (k : String) : Option ℚ :=
  (rs.find? (fun p => p.1 == k)).map Prod.snd

/-- Extraction of the first currency code of a directory entry
(src/app.py lines 224-228): `currencies = country_data.get('currencies') or []`
then, when the list is non-empty, `(currencies[0] or {}).get('code')`. -/
def firstCurrencyCode (e : DirectoryEntry) : Option String :=
  match e.currencies.getD [] with
  | [] => none
  | c0 :: _ => (c0.getD ⟨none⟩).code

/-- The exchange rate resolved for a directory entry (src/app.py lines
230-235): looked up only when the currency code is truthy. -/
def entryRate (e : DirectoryEntry) (rates : Rates) : Option ℚ :=
  if truthyStr (firstCurrencyCode e) then
    Rates.get rates ((firstCurrencyCode e).getD "")
  else none

/-- Whether the refresh loop calls `calculate_gdp` for this entry
(src/app.py lines 234-238), i.e. whether one random draw is consumed. -/
def entryDraws (e : DirectoryEntry) (rates : Rates) : Bool :=
  truthyStr (firstCurrencyCode e) && (truthyInt e.population && truthyRat (entryRate e rates))

/-- The estimated GDP the refresh loop stores for an entry, given the
multiplier `m` that would be drawn (src/app.py lines 230-238). -/
def entryGdp (e : DirectoryEntry) (rates : Rates) (m : ℚ) : Option ℚ :=
  if entryDraws e rates then calculate_gdp e.population (entryRate e rates) m
  else none

/-- Whether the refresh loop processes this entry at all: `name =
country_data.get('name'); if not name: continue` (src/app.py lines 220-222). -/
def validName (e : DirectoryEntry) : Bool :=
  truthyStr e.name

/-- The case-insensitive key of a directory entry. -/
def entryKey (e : DirectoryEntry) : String := strLower (e.name.getD "")

/-- The case-insensitive key of a stored record. -/
def countryKey (c : Country) : String := strLower c.name

/-- Case-insensitive lookup over the countries table, as performed by
`Country.query.filter(db.func.lower(Country.name) == name.lower()).first()`. -/
def findKey (key : String) (cs : List Country) : Option Country :=
  cs.find? (fun c => strLower c.name == key)

/-- Lookup by (not yet lowered) name, the exact shape used in the source. -/
def findCountry (name : String) (cs : List Country) : Option Country :=
  findKey (strLower name) cs

/-- In-place update of the first record satisfying `p`, keeping its position
in the table (the ORM updates the queried row in place). -/
def updateFirstMatch (p : Country → Bool) (f : Country → Country) :
    List Country → List Country
  | [] => []
  | c :: cs => if p c then f c :: cs else c :: updateFirstMatch p f cs

/-- Removal of the first record satisfying `p` (`db.session.delete` on the
queried row). -/
def removeFirstMatch (p : Country → Bool) : List Country → List Country
  | [] => []
  | c :: cs => if p c then cs else c :: removeFirstMatch p cs

/-- The seven directly-copied-or-resolved fields of the record the refresh
loop writes for a directory entry (everything except the randomized
`estimated_gdp`): capital, region, population (`or 0`), currency code,
exchange rate, flag URL and refresh timestamp (src/app.py lines 245-267). -/
structure CountryView where
  capital : Option String
  region : Option String
  population : Int
  currency_code : Option String
  exchange_rate : Option ℚ
  flag_url : Option String
  last_refreshed_at : Nat
deriving Repr, DecidableEq

/-- Projection of a stored record to its refresh-written fields. -/
def Country.view (c : Country) : CountryView :=
  ⟨c.capital, c.region, c.population, c.currency_code, c.exchange_rate,
   c.flag_url, c.last_refreshed_at⟩

/-- The refresh-written fields determined by a directory entry, the rates
mapping and the cycle timestamp. -/
def entryView (e : DirectoryEntry) (rates : Rates) (now : Nat) : CountryView :=
  ⟨e.capital, e.region, e.population.getD 0, firstCurrencyCode e,
   entryRate e rates, e.flag, now⟩

/-- The field assignments of the update branch (src/app.py lines 245-254):
every mutable field is overwritten from the entry, the row name (and id)
stays. -/
def applyEntry (e : DirectoryEntry) (rates : Rates) (m : ℚ) (now : Nat)
    (c : Country) : Country :=
  { c with capital := e.capital, region := e.region,
           population := e.population.getD 0,
           currency_code := firstCurrencyCode e,
           exchange_rate := entryRate e rates,
           estimated_gdp := entryGdp e rates m,
           flag_url := e.flag, last_refreshed_at := now }

/-- The record built by the create branch (src/app.py lines 256-267). -/
def newCountry (e : DirectoryEntry) (rates : Rates) (m : ℚ) (now : Nat) : Country :=
  { name := e.name.getD "", capital := e.capital, region := e.region,
    population := e.population.getD 0,
    currency_code := firstCurrencyCode e,
    exchange_rate := entryRate e rates,
    estimated_gdp := entryGdp e rates m,
    flag_url := e.flag, last_refreshed_at := now }

/-- One iteration of the refresh loop body (src/app.py lines 219-268) on the
session table `cs` with draw counter `k`: skip entries with a falsy name,
resolve currency/rate/GDP, then update the first case-insensitive name match
in place or append a new record. -/
def upsertEntry (rates : Rates) (d : Nat → ℚ) (now : Nat)
    (cs : List Country) (k : Nat) (e : DirectoryEntry) : List Country × Nat :=
  if validName e = true then
    let nm := e.name.getD ""
    let k1 := if entryDraws e rates then k + 1 else k
    let p : Country → Bool := fun c => strLower c.name == strLower nm
    match cs.find? p with
    | some _ => (updateFirstMatch p (applyEntry e rates (d k) now) cs, k1)
    | none => (cs ++ [newCountry e rates (d k) now], k1)
  else (cs, k)

/-- The whole refresh loop over the directory entries. -/
def processEntries (rates : Rates) (d : Nat → ℚ) (now : Nat) :
    List DirectoryEntry → List Country → Nat → List Country × Nat
  | [], cs, k => (cs, k)
  | e :: es, cs, k =>
      let r := upsertEntry rates d now cs k e
      processEntries rates d now es r.1 r.2

/-- Outcome of the `/countries/refresh` handler, as seen by the HTTP caller:
503 with the given detail text, 500 from the caught commit failure, 500 from
the generic error handler (uncaught exception), or 200 with the reported
total. -/
inductive RefreshResult where
  | unavailable (details : String)
  | dbError (details : String)
  | serverError
  | success (total_countries : Nat)
deriving Repr, DecidableEq

/-- Embedding of `refresh_countries` (src/app.py lines 198-301).

`fetchCountries` and `fetchRates` are the two upstream calls; a rates
response carries `some rates` when the JSON has a `rates` field and `none`
otherwise (`exchange_data.get('rates', {})`).  `commitFail` injects a failure
of the commit at line 272, `metaCommitFail` of the commit at line 289.

The metadata phase mirrors the source faithfully: when a `RefreshMetadata`
row already exists, its fields are assigned on the session object but the
source never commits afterwards, so the assignment is discarded when the
request's session is torn down — the committed metadata row is unchanged.
Only the create-branch (line 289) commits the new row.  A failure of that
uncommitted-by-`try` commit propagates to the generic 500 handler. -/
def refresh_countries (fetchCountries : Except String (List DirectoryEntry))
    (fetchRates : Except String (Option Rates)) (d : Nat → ℚ) (now : Nat)
    (commitFail metaCommitFail : Option String) (db0 : DBState) :
    RefreshResult × DBState :=
  match fetchCountries with
  | .error e => (.unavailable ("Could not fetch data from countries API: " ++ e), db0)
  | .ok countries_data =>
  match fetchRates with
  | .error e => (.unavailable ("Could not fetch data from exchange rate API: " ++ e), db0)
  | .ok ratesField =>
    let exchange_rates := ratesField.getD []
    let cs := (processEntries exchange_rates d now countries_data db0.countries 0).1
    match commitFail with
    | some msg => (.dbError msg, db0)
    | none =>
      let committed : DBState := { countries := cs, metadata := db0.metadata }
      let total_countries := committed.countries.length
      match committed.metadata with
      | some _ => (.success total_countries, committed)
      | none =>
        match metaCommitFail with
        | none =>
            (.success total_countries,
             { committed with metadata := some ⟨now, total_countries⟩ })
        | some _ => (.serverError, committed)

/-- Outcome of the `/countries/<name>` DELETE handler. -/
inductive DeleteResult where
  | notFound
  | dbError (details : String)
  | deleted
deriving Repr, DecidableEq

/-- Embedding of `delete_country` (src/app.py lines 339-357).  `commitFail`
injects a failure of the commit at line 349 (the record deletion),
`metaCommitFail` of the commit at line 353 (the metadata update); both are
caught by the surrounding `try`, which rolls the session back.  The source
response carries the country name in its message; the message text plays no
role in any claim and is omitted. -/
def delete_country (name : String) (commitFail metaCommitFail : Option String)
    (db0 : DBState) : DeleteResult × DBState :=
  match findCountry name db0.countries with
  | none => (.notFound, db0)
  | some _ =>
    match commitFail with
    | some msg => (.dbError msg, db0)
    | none =>
      let committed1 : DBState :=
        { db0 with countries :=
            removeFirstMatch (fun c => strLower c.name == strLower name) db0.countries }
      match committed1.metadata with
      | none => (.deleted, committed1)
      | some md =>
        match metaCommitFail with
        | some msg => (.dbError msg, committed1)
        | none =>
            (.deleted,
             { committed1 with
               metadata := some ({ md with total_countries := committed1.countries.length }) })

/-- Comparator realised by `ORDER BY estimated_gdp DESC` in MySQL and SQLite:
present values in descending order, records with `NULL` GDP last (both
engines treat `NULL` as the smallest value). -/
def gdp_desc_le (a b : Country) : Bool :=
  match a.estimated_gdp, b.estimated_gdp with
  | some x, some y => decide (y ≤ x)
  | some _, none => true
  | none, some _ => false
  | none, none => true

/-- Comparator realised by `ORDER BY estimated_gdp ASC`: records with `NULL`
GDP first, then present values in ascending order. -/
def gdp_asc_le (a b : Country) : Bool :=
  match a.estimated_gdp, b.estimated_gdp with
  | some x, some y => decide (x ≤ y)
  | none, _ => true
  | some _, none => false

/-- Lexicographic order on character lists, the order `ORDER BY name ASC`
realises on the stored names. -/
def charLexLe : List Char → List Char → Bool
  | [], _ => true
  | _ :: _, [] => false
  | a :: as, b :: bs =>
      if a < b then true else if b < a then false else charLexLe as bs

/-- Name comparator for `ORDER BY name ASC`. -/
def name_le (a b : Country) : Bool := charLexLe a.name.data b.name.data

/-- Embedding of `get_countries` (src/app.py lines 303-327): conjunctive
case-insensitive filters on `region` and `currency` (each applied only when
the parameter is truthy, and matching only non-NULL columns, since
`lower(NULL) = NULL` never equals a string), then an `ORDER BY` according to
the `sort` parameter, modelled as a sort by the corresponding comparator;
any other value of `sort` (including its absence) leaves the table order. -/
def get_countries (region currency sort : Option String) (db : DBState) :
    List Country :=
  let q0 := db.countries
  let q1 := if truthyStr region then
      q0.filter (fun c =>
        match c.region with
        | some s => strLower s == strLower (region.getD "")
        | none => false)
    else q0
  let q2 := if truthyStr currency then
      q1.filter (fun c =>
        match c.currency_code with
        | some s => strLower s == strLower (currency.getD "")
        | none => false)
    else q1
  match sort with
  | some "gdp_desc" => q2.mergeSort gdp_desc_le
  | some "gdp_asc" => q2.mergeSort gdp_asc_le
  | some "name" => q2.mergeSort name_le
  | _ => q2

/-- The last directory entry that the refresh loop would process under the
given case-insensitive key. -/
def lastMatch (key : String) (es : List DirectoryEntry) : Option DirectoryEntry :=
  (es.filter (fun e => validName e && (entryKey e == key))).getLast?

/-! ### Sample data used by closed witnesses -/

/-- A directory entry carrying only a name. -/
def dirEntryNamed (nm : String) : DirectoryEntry := ⟨some nm, none, none, none, none, none⟩

/-- A stored record carrying only a name. -/
def countryNamed (nm : String) : Country := ⟨nm, none, none, 0, none, none, none, none, 0⟩

/-- First refresh cycle of the metadata scenario: empty store, a one-entry
directory, a rates response with an empty mapping. -/
def refreshCycleOne : RefreshResult × DBState :=
  refresh_countries (.ok [dirEntryNamed "Atlantis"]) (.ok (some []))
    (fun _ => 0) 1 none none ⟨[], none⟩

/-- Second refresh cycle of the metadata scenario: same store, the directory
now lists a second country. -/
def refreshCycleTwo : RefreshResult × DBState :=
  refresh_countries (.ok [dirEntryNamed "Atlantis", dirEntryNamed "Borduria"])
    (.ok (some [])) (fun _ => 0) 2 none none refreshCycleOne.2

/-! ### Helper lemmas about the refresh loop -/

/-- Entries with a falsy name are a no-op for the loop body. -/
theorem upsertEntry_invalid (rates : Rates) (d : Nat → ℚ) (now : Nat)
    (cs : List Country) (k : Nat) (e : DirectoryEntry) (h : validName e = false) :
    upsertEntry rates d now cs k e = (cs, k) := by
  unfold upsertEntry
  rw [h]
  simp

/-- The loop processes a concatenation of entry lists sequentially. -/
theorem processEntries_append (rates : Rates) (d : Nat → ℚ) (now : Nat)
    (es1 es2 : List DirectoryEntry) : ∀ cs k,
    processEntries rates d now (es1 ++ es2) cs k =
      processEntries rates d now es2 (processEntries rates d now es1 cs k).1
        (processEntries rates d now es1 cs k).2 := by
  induction es1 with
  | nil => intro cs k; rfl
  | cons e es ih =>
      intro cs k
      simp only [List.cons_append, processEntries]
      exact ih _ _

/-- A leading invalid entry is skipped by the loop. -/
theorem processEntries_cons_invalid (rates : Rates) (d : Nat → ℚ) (now : Nat)
    (cs : List Country) (k : Nat) (e : DirectoryEntry) (es : List DirectoryEntry)
    (h : validName e = false) :
    processEntries rates d now (e :: es) cs k = processEntries rates d now es cs k := by
  simp only [processEntries, upsertEntry_invalid rates d now cs k e h]

/-! ### Claim theorems -/

/-- C1: the claim fails on the code.  After a first successful refresh
creates the metadata row (committing it), a second successful refresh whose
directory has an extra country reports success with `total_countries = 2`
and leaves 2 records in the store, yet the persisted
`RefreshMetadata.total_countries` is still 1: the source assigns the new
count on the already-existing metadata row but never commits that session
change (src/app.py lines 279-289 commit only in the create branch), so it is
discarded when the request's session is torn down. -/
theorem refresh_metadata_count_not_persisted :
    refreshCycleTwo.1 = .success 2 ∧
    refreshCycleTwo.2.countries.length = 2 ∧
    refreshCycleTwo.2.metadata.map (fun m => m.total_countries) = some 1 := by
  decide

/-- C2 counterexample: the claim says a negative population or a negative
exchange rate yields an absent result, but `if not population or not
exchange_rate` only filters `None` and zero — Python truthiness lets
negatives through, so both calls below return a present value. -/
theorem calculate_gdp_negative_present :
    calculate_gdp (some (-1)) (some 1) 1500 ≠ none ∧
    calculate_gdp (some 5) (some (-2)) 1500 ≠ none := by
  decide

/-- C2 amended: `calculate_gdp` returns an absent result if and only if
either input is absent or zero; in particular any population ≠ 0 paired with
any exchange rate ≠ 0 (both including negatives) yields a present value. -/
theorem calculate_gdp_none_iff (p : Option Int) (r : Option ℚ) (m : ℚ) :
    calculate_gdp p r m = none ↔ p = none ∨ p = some 0 ∨ r = none ∨ r = some 0 := by
  cases p with
  | none => simp [calculate_gdp, truthyInt]
  | some n =>
    cases r with
    | none => simp [calculate_gdp, truthyInt, truthyRat]
    | some q =>
      by_cases hn : n = 0 <;> by_cases hq : q = 0 <;>
        simp [calculate_gdp, truthyInt, truthyRat, hn, hq]

/-- C4: if the Exchange Rate Source fetch raises (transport error, timeout,
or non-success status), the refresh cycle returns the 503 response naming
the exchange rate API and the committed store is exactly the one from before
the cycle. -/
theorem refresh_rates_failure_leaves_store (entries : List DirectoryEntry)
    (msg : String) (d : Nat → ℚ) (now : Nat) (cf mcf : Option String)
    (db0 : DBState) :
    refresh_countries (.ok entries) (.error msg) d now cf mcf db0 =
      (.unavailable ("Could not fetch data from exchange rate API: " ++ msg), db0) :=
  rfl

/-- C5: for a positive population and positive exchange rate, every draw of
the multiplier from [1000, 2000) puts the estimate in
[population * 1000 / rate, population * 2000 / rate). -/
theorem calculate_gdp_range (p : Int) (r m : ℚ) (hp : 0 < p) (hr : 0 < r)
    (hm1 : 1000 ≤ m) (hm2 : m < 2000) :
    ∃ g, calculate_gdp (some p) (some r) m = some g ∧
      (p : ℚ) * 1000 / r ≤ g ∧ g < (p : ℚ) * 2000 / r := by
  have hp' : (0 : ℚ) < (p : ℚ) := by exact_mod_cast hp
  refine ⟨(p : ℚ) * m / r, ?_, ?_, ?_⟩
  · simp [calculate_gdp, truthyInt, truthyRat, hp.ne', hr.ne']
  · gcongr
  · gcongr

/-- C5 witness at population 1, rate 2, multiplier 1000. -/
theorem calculate_gdp_range_witness :
    ∃ g, calculate_gdp (some 1) (some 2) 1000 = some g ∧
      ((1 : Int) : ℚ) * 1000 / 2 ≤ g ∧ g < ((1 : Int) : ℚ) * 2000 / 2 :=
  calculate_gdp_range 1 2 1000 (by decide) (by decide) (by decide) (by decide)

/-- C8: deleting a name with no case-insensitive match returns not-found and
returns the store unchanged, record for record. -/
theorem delete_missing_leaves_store (name : String) (cf mcf : Option String)
    (db0 : DBState) (h : findCountry name db0.countries = none) :
    delete_country name cf mcf db0 = (.notFound, db0) := by
  unfold delete_country
  rw [h]

/-- C8 witness: deleting a missing name from a one-record store. -/
theorem delete_missing_leaves_store_witness :
    delete_country "Borduria" none none ⟨[countryNamed "Atlantis"], none⟩ =
      (.notFound, ⟨[countryNamed "Atlantis"], none⟩) :=
  delete_missing_leaves_store "Borduria" none none
    ⟨[countryNamed "Atlantis"], none⟩ (by decide)

/-- C9: a directory entry whose name is missing or empty is skipped
entirely: the refresh cycle returns exactly the same response and the same
committed store as the cycle without that entry, whatever the rest of the
directory, the rates response, the draws, the clock and the commit
outcomes. -/
theorem refresh_skips_invalid_entry (e : DirectoryEntry)
    (h : validName e = false) (es1 es2 : List DirectoryEntry)
    (fr : Except String (Option Rates)) (d : Nat → ℚ) (now : Nat)
    (cf mcf : Option String) (db0 : DBState) :
    refresh_countries (.ok (es1 ++ e :: es2)) fr d now cf mcf db0 =
      refresh_countries (.ok (es1 ++ es2)) fr d now cf mcf db0 := by
  cases fr with
  | error msg => rfl
  | ok ratesField =>
    have hskip : processEntries (ratesField.getD []) d now (es1 ++ e :: es2)
        db0.countries 0 =
        processEntries (ratesField.getD []) d now (es1 ++ es2) db0.countries 0 := by
      rw [processEntries_append, processEntries_cons_invalid _ _ _ _ _ _ _ h,
        ← processEntries_append]
    simp only [refresh_countries, hskip]

/-- C9 witness: inserting a nameless entry and an empty-named entry leaves a
concrete cycle unchanged. -/
theorem refresh_skips_invalid_entry_witness :
    refresh_countries (.ok ([dirEntryNamed "Atlantis"] ++ dirEntryNamed "" :: []))
        (.ok (some [])) (fun _ => 0) 1 none none ⟨[], none⟩ =
      refresh_countries (.ok ([dirEntryNamed "Atlantis"] ++ []))
        (.ok (some [])) (fun _ => 0) 1 none none ⟨[], none⟩ :=
  refresh_skips_invalid_entry (dirEntryNamed "") (by decide)
    [dirEntryNamed "Atlantis"] [] (.ok (some [])) (fun _ => 0) 1 none none
    ⟨[], none⟩

/-- C10: when the delete finds a record and a metadata row exists (and the
backend accepts both commits, as it does on the success path the claim is
about), the handler persists the post-deletion record count into
`RefreshMetadata.total_countries` while leaving its `last_refreshed_at`
untouched. -/
theorem delete_persists_recount (name : String) (db0 : DBState) (c : Country)
    (md : RefreshMetadata) (hc : findCountry name db0.countries = some c)
    (hmd : db0.metadata = some md) :
    delete_country name none none db0 =
      (.deleted,
       { countries := removeFirstMatch (fun x => strLower x.name == strLower name) db0.countries,
         metadata := some ⟨md.last_refreshed_at,
           (removeFirstMatch (fun x => strLower x.name == strLower name) db0.countries).length⟩ }) := by
  unfold delete_country
  rw [hc]
  cases db0 with
  | mk cs m =>
    cases hmd
    rfl

/-- C10 witness: deleting one of two records updates the persisted count to
1 and keeps the metadata timestamp 7. -/
theorem delete_persists_recount_witness :
    delete_country "ATLANTIS" none none
        ⟨[countryNamed "Atlantis", countryNamed "Borduria"], some ⟨7, 2⟩⟩ =
      (.deleted, ⟨[countryNamed "Borduria"], some ⟨7, 1⟩⟩) :=
  (delete_persists_recount "ATLANTIS"
      ⟨[countryNamed "Atlantis", countryNamed "Borduria"], some ⟨7, 2⟩⟩
      (countryNamed "Atlantis") ⟨7, 2⟩ (by decide) rfl).trans (by decide)

/-! ### Upsert machinery: how the loop transforms the keyed table -/

/-- Finding under `q` is unaffected by an in-place update of rows matching a
predicate `p` that is incompatible with `q`, when the update preserves `q`. -/
theorem find?_updateFirstMatch_other (p q : Country → Bool) (f : Country → Country)
    (hq : ∀ c, q (f c) = q c) (hpq : ∀ c, p c = true → q c = false) :
    ∀ cs : List Country, (updateFirstMatch p f cs).find? q = cs.find? q := by
  intro cs
  induction cs with
  | nil => rfl
  | cons c cs ih =>
    cases hpc : p c with
    | true =>
      have hqc : q c = false := hpq c hpc
      have hqfc : q (f c) = false := (hq c).trans hqc
      simp [updateFirstMatch, hpc, List.find?_cons_of_neg, hqc, hqfc]
    | false =>
      cases hqc : q c with
      | true => simp [updateFirstMatch, hpc, List.find?_cons_of_pos, hqc]
      | false => simp [updateFirstMatch, hpc, List.find?_cons_of_neg, hqc, ih]

/-- Finding under `p` after updating the first `p`-row in place yields the
updated row, when the update preserves `p`. -/
theorem find?_updateFirstMatch_self (p : Country → Bool) (f : Country → Country)
    (hp : ∀ c, p (f c) = p c) :
    ∀ (cs : List Country) (c0 : Country), cs.find? p = some c0 →
      (updateFirstMatch p f cs).find? p = some (f c0) := by
  intro cs
  induction cs with
  | nil => intro c0 h; cases h
  | cons c cs ih =>
    intro c0 h
    cases hpc : p c with
    | true =>
      rw [List.find?_cons_of_pos _ hpc] at h
      injection h with h2
      subst h2
      have hfc : p (f c) = true := (hp c).trans hpc
      simp [updateFirstMatch, hpc, List.find?_cons_of_pos, hfc]
    | false =>
      rw [List.find?_cons_of_neg _ (by simp [hpc])] at h
      simp [updateFirstMatch, hpc, List.find?_cons_of_neg, ih _ h]

/-- An in-place update that keeps the row name keeps the key column. -/
theorem updateFirstMatch_map_key (p : Country → Bool) (f : Country → Country)
    (hf : ∀ c, (f c).name = c.name) :
    ∀ cs : List Country, (updateFirstMatch p f cs).map countryKey = cs.map countryKey := by
  intro cs
  induction cs with
  | nil => rfl
  | cons c cs ih =>
    cases hpc : p c with
    | true => simp [updateFirstMatch, hpc, countryKey, hf]
    | false => simp [updateFirstMatch, hpc, ih]

/-- A key is missing from a lookup exactly when no row carries it. -/
theorem findKey_eq_none_iff (key : String) (cs : List Country) :
    findKey key cs = none ↔ key ∉ cs.map countryKey := by
  unfold findKey
  rw [List.find?_eq_none]
  constructor
  · rintro h hmem
    rcases List.mem_map.mp hmem with ⟨c, hc, hkey⟩
    exact h c hc (by simp [countryKey] at hkey; simp [hkey])
  · intro h c hc hbeq
    exact h (List.mem_map.mpr ⟨c, hc, by simpa [countryKey] using hbeq⟩)

/-- Processing a valid entry leaves a row for its key whose written fields
are exactly the entry's, with the draw at the current counter as GDP
multiplier. -/
theorem upsertEntry_findKey_self (rates : Rates) (d : Nat → ℚ) (now : Nat)
    (cs : List Country) (k : Nat) (e : DirectoryEntry) (hv : validName e = true) :
    ∃ c, findKey (entryKey e) (upsertEntry rates d now cs k e).1 = some c ∧
      c.view = entryView e rates now ∧ c.estimated_gdp = entryGdp e rates (d k) := by
  unfold upsertEntry
  rw [hv]
  simp only [if_true, findKey, entryKey]
  cases hfind : cs.find? (fun c => strLower c.name == strLower (e.name.getD "")) with
  | some c0 =>
    simp only [hfind]
    refine ⟨_, find?_updateFirstMatch_self _ _ ?_ cs c0 hfind, rfl, rfl⟩
    intro c
    rfl
  | none =>
    simp only [hfind]
    rw [List.find?_append, hfind]
    simp [newCountry, Country.view, entryView]

/-- Processing an entry whose key differs (or which is skipped) leaves the
lookup of any other key unchanged. -/
theorem upsertEntry_findKey_other (rates : Rates) (d : Nat → ℚ) (now : Nat)
    (cs : List Country) (k : Nat) (e : DirectoryEntry) (key : String)
    (hne : ¬(validName e = true ∧ entryKey e = key)) :
    findKey key (upsertEntry rates d now cs k e).1 = findKey key cs := by
  cases hv : validName e with
  | false => rw [upsertEntry_invalid rates d now cs k e hv]
  | true =>
    have hk : entryKey e ≠ key := fun h => hne ⟨hv, h⟩
    unfold upsertEntry
    rw [hv]
    simp only [if_true, findKey]
    have hpq : ∀ c : Country, (strLower c.name == strLower (e.name.getD "")) = true →
        (strLower c.name == key) = false := by
      intro c hc
      rw [beq_iff_eq] at hc
      rw [beq_eq_false_iff_ne, hc]
      exact fun h => hk (h ▸ rfl)
    cases hfind : cs.find? (fun c => strLower c.name == strLower (e.name.getD "")) with
    | some c0 =>
      simp only [hfind]
      refine find?_updateFirstMatch_other _ _ _ ?_ hpq cs
      intro c
      rfl
    | none =>
      simp only [hfind]
      rw [List.find?_append]
      have : (strLower (e.name.getD "") == key) = false := by
        rw [beq_eq_false_iff_ne]; exact hk
      simp [newCountry, this]

/-- Processing one entry adds the entry's key to the key column when the
entry is valid, and otherwise leaves the key set alone. -/
theorem upsertEntry_key_mem (rates : Rates) (d : Nat → ℚ) (now : Nat)
    (cs : List Country) (k : Nat) (e : DirectoryEntry) (key : String) :
    key ∈ (upsertEntry rates d now cs k e).1.map countryKey ↔
      key ∈ cs.map countryKey ∨ (validName e = true ∧ entryKey e = key) := by
  cases hv : validName e with
  | false =>
    rw [upsertEntry_invalid rates d now cs k e hv]
    simp
  | true =>
    unfold upsertEntry
    rw [hv]
    simp only [if_true]
    cases hfind : cs.find? (fun c => strLower c.name == strLower (e.name.getD "")) with
    | some c0 =>
      have h1 := List.find?_some hfind
      have h2 := List.mem_of_find?_eq_some hfind
      rw [beq_iff_eq] at h1
      have hmem : entryKey e ∈ cs.map countryKey :=
        List.mem_map.mpr ⟨c0, h2, by simp [countryKey, entryKey, h1]⟩
      simp only [hfind]
      rw [updateFirstMatch_map_key _ (applyEntry e rates (d k) now) (fun c => rfl)]
      constructor
      · exact Or.inl
      · rintro (h | ⟨-, hk⟩)
        · exact h
        · exact hk ▸ hmem
    | none =>
      simp only [hfind]
      simp [newCountry, countryKey, entryKey, hv, eq_comm]

/-- Processing one entry keeps the key column duplicate-free. -/
theorem upsertEntry_key_nodup (rates : Rates) (d : Nat → ℚ) (now : Nat)
    (cs : List Country) (k : Nat) (e : DirectoryEntry)
    (h : (cs.map countryKey).Nodup) :
    ((upsertEntry rates d now cs k e).1.map countryKey).Nodup := by
  cases hv : validName e with
  | false =>
    rw [upsertEntry_invalid rates d now cs k e hv]
    exact h
  | true =>
    unfold upsertEntry
    rw [hv]
    simp only [if_true]
    cases hfind : cs.find? (fun c => strLower c.name == strLower (e.name.getD "")) with
    | some c0 =>
      simp only [hfind]
      rw [updateFirstMatch_map_key _ (applyEntry e rates (d k) now) (fun c => rfl)]
      exact h
    | none =>
      have hnot : entryKey e ∉ cs.map countryKey := by
        rw [← findKey_eq_none_iff]
        exact hfind
      simp only [hfind]
      rw [List.map_append, List.nodup_append]
      refine ⟨h, List.nodup_singleton _, ?_⟩
      intro x hx hx2
      simp only [List.map_cons, List.map_nil, List.mem_singleton] at hx2
      subst hx2
      exact hnot hx

/-- Key membership after the whole loop: the keys afterwards are the keys
before plus the keys of the valid entries. -/
theorem processEntries_key_mem (rates : Rates) (d : Nat → ℚ) (now : Nat) :
    ∀ (es : List DirectoryEntry) (cs : List Country) (k : Nat) (key : String),
      key ∈ (processEntries rates d now es cs k).1.map countryKey ↔
        key ∈ cs.map countryKey ∨ ∃ e ∈ es, validName e = true ∧ entryKey e = key := by
  intro es
  induction es with
  | nil =>
    intro cs k key
    simp [processEntries]
  | cons e es ih =>
    intro cs k key
    simp only [processEntries]
    rw [ih, upsertEntry_key_mem, List.exists_mem_cons_iff]
    tauto

/-- The whole loop keeps the key column duplicate-free. -/
theorem processEntries_key_nodup (rates : Rates) (d : Nat → ℚ) (now : Nat) :
    ∀ (es : List DirectoryEntry) (cs : List Country) (k : Nat),
      (cs.map countryKey).Nodup →
      ((processEntries rates d now es cs k).1.map countryKey).Nodup := by
  intro es
  induction es with
  | nil => intro cs k h; exact h
  | cons e es ih =>
    intro cs k h
    exact ih _ _ (upsertEntry_key_nodup rates d now cs k e h)

/-- Main loop lemma: after the loop, looking a key up either is unchanged
(when no valid entry carries the key) or returns a row whose written fields
are those of the last valid entry carrying the key, with some multiplier
draw for the GDP. -/
theorem processEntries_findKey (rates : Rates) (d : Nat → ℚ) (now : Nat) :
    ∀ (es : List DirectoryEntry) (cs : List Country) (k : Nat) (key : String),
      (lastMatch key es = none →
        findKey key (processEntries rates d now es cs k).1 = findKey key cs) ∧
      (∀ e : DirectoryEntry, lastMatch key es = some e →
        ∃ c, findKey key (processEntries rates d now es cs k).1 = some c ∧
          c.view = entryView e rates now ∧ ∃ m, c.estimated_gdp = entryGdp e rates m) := by
  intro es
  induction es with
  | nil =>
    intro cs k key
    refine ⟨fun _ => rfl, fun e he => ?_⟩
    simp [lastMatch] at he
  | cons e0 es ih =>
    intro cs k key
    cases hP : (validName e0 && (entryKey e0 == key)) with
    | false =>
      have hne : ¬(validName e0 = true ∧ entryKey e0 = key) := by
        rintro ⟨h1, h2⟩
        rw [h1, h2] at hP
        simp at hP
      have hLM : lastMatch key (e0 :: es) = lastMatch key es := by
        simp [lastMatch, List.filter_cons, hP]
      constructor
      · intro h0
        rw [hLM] at h0
        simp only [processEntries]
        rw [(ih _ _ _).1 h0, upsertEntry_findKey_other _ _ _ _ _ _ _ hne]
      · intro e he
        rw [hLM] at he
        simp only [processEntries]
        exact (ih _ _ _).2 e he
    | true =>
      have hP2 : validName e0 = true ∧ entryKey e0 = key := by
        simpa [beq_iff_eq] using hP
      have hv := hP2.1
      have hk := hP2.2
      cases hLMes : lastMatch key es with
      | none =>
        have hnil : List.filter (fun e => validName e && (entryKey e == key)) es = [] := by
          rw [lastMatch] at hLMes
          exact List.getLast?_eq_none_iff.mp hLMes
        have hLM : lastMatch key (e0 :: es) = some e0 := by
          simp [lastMatch, List.filter_cons, hP, hnil]
        constructor
        · intro h0
          rw [hLM] at h0
          cases h0
        · intro e he
          rw [hLM] at he
          injection he with he2
          subst he2
          simp only [processEntries]
          rcases upsertEntry_findKey_self rates d now cs k e0 hv with ⟨c, hc1, hc2, hc3⟩
          refine ⟨c, ?_, hc2, ⟨d k, hc3⟩⟩
          rw [(ih _ _ _).1 hLMes, ← hk]
          exact hc1
      | some e1 =>
        have hne2 : List.filter (fun e => validName e && (entryKey e == key)) es ≠ [] := by
          intro hc
          rw [lastMatch, hc] at hLMes
          cases hLMes
        have hLM : lastMatch key (e0 :: es) = some e1 := by
          rw [lastMatch] at hLMes ⊢
          rw [List.filter_cons]
          rw [hP]
          simp only [if_true]
          cases hfes : List.filter (fun e => validName e && (entryKey e == key)) es with
          | nil => exact absurd hfes hne2
          | cons a l =>
            rw [hfes] at hLMes
            rw [List.getLast?_cons_cons]
            exact hLMes
        constructor
        · intro h0
          rw [hLM] at h0
          cases h0
        · intro e he
          rw [hLM] at he
          injection he with he2
          subst he2
          simp only [processEntries]
          exact (ih _ _ _).2 e1 hLMes

/-- In a table with duplicate-free keys, each row is found under its own
key. -/
theorem findKey_of_mem :
    ∀ cs : List Country, (cs.map countryKey).Nodup →
      ∀ c ∈ cs, findKey (countryKey c) cs = some c := by
  intro cs
  induction cs with
  | nil =>
    intro h c hc
    cases hc
  | cons c0 cs ih =>
    intro h c hc
    rw [List.map_cons] at h
    have hnd := List.nodup_cons.mp h
    rcases List.mem_cons.mp hc with rfl | hc2
    · unfold findKey
      rw [List.find?_cons_of_pos]
      exact beq_self_eq_true _
    · have hne : (strLower c0.name == countryKey c) = false := by
        rw [beq_eq_false_iff_ne]
        intro hcontra
        apply hnd.1
        rw [show countryKey c0 = countryKey c from hcontra]
        exact List.mem_map.mpr ⟨c, hc2, rfl⟩
      unfold findKey
      rw [List.find?_cons_of_neg _ (by simp [hne])]
      exact ih hnd.2 c hc2

/-- On the success path the committed countries table is exactly the loop
result, whatever the metadata branch does. -/
theorem refresh_ok_countries (entries : List DirectoryEntry) (ratesOpt : Option Rates)
    (d : Nat → ℚ) (now : Nat) (mcf : Option String) (db0 : DBState) :
    ((refresh_countries (.ok entries) (.ok ratesOpt) d now none mcf db0).2).countries =
      (processEntries (ratesOpt.getD []) d now entries db0.countries 0).1 := by
  cases db0 with
  | mk cs0 m0 =>
    cases m0 with
    | none =>
      cases mcf with
      | none => rfl
      | some msg => rfl
    | some md => rfl

/-- C3: running the refresh cycle twice on the same directory and rates
inputs, starting from an empty store, leaves exactly one record per distinct
case-insensitive name (the key column is duplicate-free and its keys are
exactly the keys of the valid directory entries — so two entries whose names
differ only in case collapse to one record); every record carries the
written field values (capital, region, population, currency code, exchange
rate, flag URL, refresh timestamp) of the last directory entry with its key,
stamped with the second cycle's timestamp, i.e. the second cycle's values
overwrite the first's, last write wins; and two records sharing a key are
the same record. -/
theorem refresh_twice_one_record_per_name (entries : List DirectoryEntry)
    (ratesOpt : Option Rates) (d1 d2 : Nat → ℚ) (t1 t2 : Nat)
    (mcf1 mcf2 : Option String) :
    let db1 := (refresh_countries (.ok entries) (.ok ratesOpt) d1 t1 none mcf1
      ⟨[], none⟩).2
    let cs2 := ((refresh_countries (.ok entries) (.ok ratesOpt) d2 t2 none mcf2
      db1).2).countries
    (cs2.map countryKey).Nodup ∧
    (∀ key, key ∈ cs2.map countryKey ↔
      ∃ e ∈ entries, validName e = true ∧ entryKey e = key) ∧
    (∀ c ∈ cs2, ∃ e, lastMatch (countryKey c) entries = some e ∧
      c.view = entryView e (ratesOpt.getD []) t2 ∧
      ∃ m, c.estimated_gdp = entryGdp e (ratesOpt.getD []) m) ∧
    (∀ c1 ∈ cs2, ∀ c2 ∈ cs2, countryKey c1 = countryKey c2 → c1 = c2) := by
  intro db1 cs2
  have hcs1 : db1.countries = (processEntries (ratesOpt.getD []) d1 t1 entries [] 0).1 :=
    refresh_ok_countries entries ratesOpt d1 t1 mcf1 ⟨[], none⟩
  have hcs2 : cs2 = (processEntries (ratesOpt.getD []) d2 t2 entries db1.countries 0).1 :=
    refresh_ok_countries entries ratesOpt d2 t2 mcf2 db1
  have hnodup1 : (db1.countries.map countryKey).Nodup := by
    rw [hcs1]
    exact processEntries_key_nodup _ _ _ entries [] 0 (by simp)
  have hnodup2 : (cs2.map countryKey).Nodup := by
    rw [hcs2]
    exact processEntries_key_nodup _ _ _ entries db1.countries 0 hnodup1
  have hmem : ∀ key, key ∈ cs2.map countryKey ↔
      ∃ e ∈ entries, validName e = true ∧ entryKey e = key := by
    intro key
    rw [hcs2, processEntries_key_mem, hcs1, processEntries_key_mem]
    simp
  refine ⟨hnodup2, hmem, ?_, ?_⟩
  · intro c hc
    have hkey : countryKey c ∈ cs2.map countryKey := List.mem_map.mpr ⟨c, hc, rfl⟩
    rcases (hmem _).mp hkey with ⟨e, he, hev, hek⟩
    have hfilter : e ∈ entries.filter
        (fun x => validName x && (entryKey x == countryKey c)) := by
      rw [List.mem_filter]
      exact ⟨he, by simp [hev, hek]⟩
    cases hlast : lastMatch (countryKey c) entries with
    | none =>
      rw [lastMatch, List.getLast?_eq_none_iff] at hlast
      exact absurd hlast (List.ne_nil_of_mem hfilter)
    | some elast =>
      rcases (processEntries_findKey (ratesOpt.getD []) d2 t2 entries
          db1.countries 0 (countryKey c)).2 elast hlast with ⟨c2, hc2a, hc2b, hc2c⟩
      have hfind : findKey (countryKey c) cs2 = some c :=
        findKey_of_mem cs2 hnodup2 c hc
      rw [hcs2] at hfind
      have hcc : c2 = c := Option.some.inj (hc2a.symm.trans hfind)
      subst hcc
      exact ⟨elast, rfl, hc2b, hc2c⟩
  · intro c1 hc1 c2 hc2 hkk
    have h1 := findKey_of_mem cs2 hnodup2 c1 hc1
    have h2 := findKey_of_mem cs2 hnodup2 c2 hc2
    rw [hkk] at h1
    exact Option.some.inj (h1.symm.trans h2)

/-- C7: a directory entry with a non-empty name but no `currencies` field
(or an empty currencies list) produces a record with `currency_code`,
`exchange_rate` and `estimated_gdp` all absent, whatever its population,
whatever the rates response, and whatever the store held before (the upsert
may be an in-place update or an insert). -/
theorem refresh_no_currency_absent_fields (e : DirectoryEntry) (nm : String)
    (ratesOpt : Option Rates) (d : Nat → ℚ) (t : Nat) (mcf : Option String)
    (db0 : DBState) (hn : e.name = some nm) (hne : nm ≠ "")
    (hcur : e.currencies = none ∨ e.currencies = some []) :
    ∃ c, findKey (strLower nm)
        ((refresh_countries (.ok [e]) (.ok ratesOpt) d t none mcf
          db0).2).countries = some c ∧
      c.currency_code = none ∧ c.exchange_rate = none ∧ c.estimated_gdp = none := by
  have hv : validName e = true := by
    simp [validName, truthyStr, hn, hne]
  have hcc : firstCurrencyCode e = none := by
    rcases hcur with h | h <;> simp [firstCurrencyCode, h]
  have hkey : entryKey e = strLower nm := by
    simp [entryKey, hn]
  rw [refresh_ok_countries]
  have hproc : (processEntries (ratesOpt.getD []) d t [e] db0.countries 0).1 =
      (upsertEntry (ratesOpt.getD []) d t db0.countries 0 e).1 := rfl
  rw [hproc, ← hkey]
  rcases upsertEntry_findKey_self (ratesOpt.getD []) d t db0.countries 0 e hv with
    ⟨c, hc1, hc2, hc3⟩
  refine ⟨c, hc1, ?_, ?_, ?_⟩
  · have := congrArg CountryView.currency_code hc2
    simpa [Country.view, entryView, hcc] using this
  · have := congrArg CountryView.exchange_rate hc2
    simpa [Country.view, entryView, entryRate, hcc, truthyStr] using this
  · rw [hc3]
    simp [entryGdp, entryDraws, hcc, truthyStr]

/-- C7 witness: a concrete entry named Wakanda with population 5 and no
currencies field, refreshed into an empty store. -/
theorem refresh_no_currency_absent_fields_witness :
    ∃ c, findKey (strLower "Wakanda")
        ((refresh_countries (.ok [⟨some "Wakanda", none, none, some 5, none, none⟩])
          (.ok (some [])) (fun _ => 1500) 3 none none ⟨[], none⟩).2).countries = some c ∧
      c.currency_code = none ∧ c.exchange_rate = none ∧ c.estimated_gdp = none :=
  refresh_no_currency_absent_fields ⟨some "Wakanda", none, none, some 5, none, none⟩
    "Wakanda" (some []) (fun _ => 1500) 3 none ⟨[], none⟩ rfl (by decide) (Or.inl rfl)

/-! ### Sort comparators: totality and transitivity -/

/-- The lexicographic character order is total. -/
theorem charLexLe_total : ∀ as bs : List Char, (charLexLe as bs || charLexLe bs as) = true := by
  intro as
  induction as with
  | nil => intro bs; simp [charLexLe]
  | cons a as ih =>
    intro bs
    cases bs with
    | nil => simp [charLexLe]
    | cons b bs =>
      rcases lt_trichotomy a b with h | h | h
      · simp [charLexLe, h]
      · subst h
        simp only [charLexLe, lt_irrefl, if_false]
        simpa using ih bs
      · simp [charLexLe, h, lt_asymm h]

/-- The lexicographic character order is transitive. -/
theorem charLexLe_trans : ∀ as bs cs : List Char,
    charLexLe as bs = true → charLexLe bs cs = true → charLexLe as cs = true := by
  intro as
  induction as with
  | nil => intro bs cs h1 h2; simp [charLexLe]
  | cons a as ih =>
    intro bs cs h1 h2
    cases bs with
    | nil => simp [charLexLe] at h1
    | cons b bs =>
      cases cs with
      | nil => simp [charLexLe] at h2
      | cons c cs =>
        rcases lt_trichotomy a b with hab | hab | hab
        · rcases lt_trichotomy b c with hbc | hbc | hbc
          · simp [charLexLe, lt_trans hab hbc]
          · subst hbc
            simp [charLexLe, hab]
          · simp [charLexLe, hbc, lt_asymm hbc] at h2
        · subst hab
          rcases lt_trichotomy a c with hac | hac | hac
          · simp [charLexLe, hac]
          · subst hac
            simp only [charLexLe, lt_irrefl, if_false] at h1 h2 ⊢
            exact ih _ _ h1 h2
          · simp [charLexLe, hac, lt_asymm hac] at h2
        · simp [charLexLe, hab, lt_asymm hab] at h1

/-- The name comparator is total. -/
theorem name_le_total : ∀ a b : Country, (name_le a b || name_le b a) = true :=
  fun a b => charLexLe_total a.name.data b.name.data

/-- The name comparator is transitive. -/
theorem name_le_trans : ∀ a b c : Country,
    name_le a b = true → name_le b c = true → name_le a c = true :=
  fun a b c => charLexLe_trans a.name.data b.name.data c.name.data

/-- The descending-GDP comparator is total. -/
theorem gdp_desc_le_total : ∀ a b : Country, (gdp_desc_le a b || gdp_desc_le b a) = true := by
  intro a b
  unfold gdp_desc_le
  cases a.estimated_gdp with
  | none => cases b.estimated_gdp <;> simp
  | some x =>
    cases b.estimated_gdp with
    | none => simp
    | some y => rcases le_total x y with h | h <;> simp [h]

/-- The descending-GDP comparator is transitive. -/
theorem gdp_desc_le_trans : ∀ a b c : Country, gdp_desc_le a b = true →
    gdp_desc_le b c = true → gdp_desc_le a c = true := by
  intro a b c
  unfold gdp_desc_le
  cases a.estimated_gdp <;> cases b.estimated_gdp <;> cases c.estimated_gdp <;> simp
  exact fun h1 h2 => le_trans h2 h1

/-- The ascending-GDP comparator is total. -/
theorem gdp_asc_le_total : ∀ a b : Country, (gdp_asc_le a b || gdp_asc_le b a) = true := by
  intro a b
  unfold gdp_asc_le
  cases a.estimated_gdp with
  | none => simp
  | some x =>
    cases b.estimated_gdp with
    | none => simp
    | some y => rcases le_total x y with h | h <;> simp [h]

/-- The ascending-GDP comparator is transitive. -/
theorem gdp_asc_le_trans : ∀ a b c : Country, gdp_asc_le a b = true →
    gdp_asc_le b c = true → gdp_asc_le a c = true := by
  intro a b c
  unfold gdp_asc_le
  cases a.estimated_gdp <;> cases b.estimated_gdp <;> cases c.estimated_gdp <;> simp
  exact fun h1 h2 => le_trans h1 h2

/-- A conditional filter produces a sublist. -/
theorem filter_if_sublist (b : Bool) (p : Country → Bool) (l : List Country) :
    (if b then l.filter p else l).Sublist l := by
  cases b
  · simp
  · simp [List.filter_sublist]

/-- C6: for every store state and filter parameters, `sort=gdp_desc` returns
a permutation of the (unsorted) result ordered by the descending-GDP
comparator, under which records with absent GDP come last; `sort=gdp_asc`
returns a permutation ordered by the ascending-GDP comparator, under which
absent-GDP records come first; `sort=name` returns a permutation ordered by
ascending name; and with no sort parameter the result preserves the table's
insertion order (it is a sublist of the stored table). -/
theorem get_countries_sort_spec (db : DBState) (region currency : Option String) :
    (get_countries region currency (some "gdp_desc") db).Perm
        (get_countries region currency none db) ∧
    (get_countries region currency (some "gdp_desc") db).Pairwise
        (fun a b => gdp_desc_le a b = true) ∧
    (get_countries region currency (some "gdp_asc") db).Perm
        (get_countries region currency none db) ∧
    (get_countries region currency (some "gdp_asc") db).Pairwise
        (fun a b => gdp_asc_le a b = true) ∧
    (get_countries region currency (some "name") db).Perm
        (get_countries region currency none db) ∧
    (get_countries region currency (some "name") db).Pairwise
        (fun a b => name_le a b = true) ∧
    (get_countries region currency none db).Sublist db.countries := by
  refine ⟨?_, ?_, ?_, ?_, ?_, ?_, ?_⟩
  · exact List.mergeSort_perm _ _
  · exact List.sorted_mergeSort gdp_desc_le_trans gdp_desc_le_total _
  · exact List.mergeSort_perm _ _
  · exact List.sorted_mergeSort gdp_asc_le_trans gdp_asc_le_total _
  · exact List.mergeSort_perm _ _
  · exact List.sorted_mergeSort name_le_trans name_le_total _
  · exact List.Sublist.trans (filter_if_sublist _ _ _) (filter_if_sublist _ _ _)
